import Mathlib

/-!
# goline: sensor pollers, goal queue and MQTT publisher

A shallow embedding of `src/goline.go`.  Every definition names the source
lines it follows.  Conventions:

* a Go `uint32` is a `Nat` reduced modulo `2 ^ 32`, a Go `byte` is a `Fin 256`;
* a Go `[]byte` is the list of its bytes (length and capacity coincide);
* a Go `error` is an `Option GoError`, `none` being `nil`;
* a run-time panic (slice bounds, method call on a nil interface) is the
  outer `none` of an `Option` result;
* calls into the external libraries (`grovepi`, `paho.mqtt.golang`) take the
  library's answer as an argument and record the request in a call log.
-/

namespace Goline

/-! ## Values -/

/-- Go error values.  `text msg` is the value built by `errors.New(msg)` in
`goline.go`; `lib code` is an error value handed back by one of the external
libraries.  Go compares errors by identity, so the two kinds never coincide. -/
inductive GoError where
  | text (msg : String)
  | lib (code : Nat)
  deriving DecidableEq, Repr

/-- A Go `byte`. -/
abbrev Byte := Fin 256

/-- Conversion to `uint32`: reduction modulo `2 ^ 32`. -/
def uint32 (n : Nat) : Nat := n % 2 ^ 32

/-- The slice expression `s[lo:hi]` on a byte slice whose capacity equals its
length; `none` is the bounds panic. -/
def slice (s : List Byte) (lo hi : Nat) : Option (List Byte) :=
  if lo ≤ hi ∧ hi ≤ s.length then some ((s.drop lo).take (hi - lo)) else none

/-- Go's `binary.LittleEndian.Uint32(b)`:
`uint32(b[0]) | uint32(b[1])<<8 | uint32(b[2])<<16 | uint32(b[3])<<24`,
with the bounds check `_ = b[3]`. -/
def littleEndianUint32 : List Byte → Option Nat
  | b0 :: b1 :: b2 :: b3 :: _ =>
    some (uint32 b0.val ||| uint32 (uint32 b1.val <<< 8)
      ||| uint32 (uint32 b2.val <<< 16) ||| uint32 (uint32 b3.val <<< 24))
  | _ => none

/-- What `c.gp.DigitalRead(pin)` hands back: raw bytes or an I/O error. -/
abbrev DigitalRead := Except GoError (List Byte)

/-- Method `Client.readPin` (goline.go:41-47).  The argument is the answer of
`c.gp.DigitalRead(pin)`.  The result pairs the returned `uint32` with the
returned `error`; `none` is the panic of `raw[1:5]` on a short buffer. -/
def readPin (rd : DigitalRead) : Option (Nat × Option GoError) :=
  match rd with
  | .error err => some (0, some err)
  | .ok raw =>
    match slice raw 1 5 with
    | none => none
    | some b =>
      match littleEndianUint32 b with
      | none => none
      | some v => some (v, none)

/-! ## The client record -/

/-- A Go channel made by `make(chan T, cap)`: its capacity and the values it
buffers, oldest first.  A channel-typed field that was never assigned is `nil`
and is written `none` in `Option (Chan α)`. -/
structure Chan (α : Type) where
  cap : Nat
  buf : List α
  deriving DecidableEq, Repr

/-- Nanoseconds in `time.Second`. -/
def second : Nat := 1000000000

/-- The settings of `mqtt.ClientOptions` that `Connect` touches: the addresses
given to `AddBroker` (in order), the client id, and the keep-alive and ping
timeout in nanoseconds as in `time.Duration`. -/
structure ClientOptions where
  brokers : List String
  clientID : String
  keepAlive : Nat
  pingTimeout : Nat
  deriving DecidableEq, Repr

/-- The options `mqtt.NewClientOptions()` starts from: no broker, empty client
id, keep-alive 30 s, ping timeout 10 s. -/
def NewClientOptions : ClientOptions :=
  { brokers := [], clientID := "", keepAlive := 30 * second, pingTimeout := 10 * second }

/-- Setter `ClientOptions.AddBroker`: one more broker address. -/
def ClientOptions.AddBroker (o : ClientOptions) (server : String) : ClientOptions :=
  { o with brokers := o.brokers ++ [server] }

/-- Setter `ClientOptions.SetClientID`. -/
def ClientOptions.SetClientID (o : ClientOptions) (id : String) : ClientOptions :=
  { o with clientID := id }

/-- Setter `ClientOptions.SetKeepAlive`. -/
def ClientOptions.SetKeepAlive (o : ClientOptions) (d : Nat) : ClientOptions :=
  { o with keepAlive := d }

/-- Setter `ClientOptions.SetPingTimeout`. -/
def ClientOptions.SetPingTimeout (o : ClientOptions) (d : Nat) : ClientOptions :=
  { o with pingTimeout := d }

/-- A broker handle `mqtt.Client`: the options it was made from and what
`IsConnected()` reports. -/
structure MqttClient where
  opts : ClientOptions
  connected : Bool
  deriving DecidableEq, Repr

/-- Method `mqtt.Client.IsConnected`. -/
def MqttClient.IsConnected (m : MqttClient) : Bool := m.connected

/-- A device handle `*grovepi.GrovePi`, known by the bus address it was opened on. -/
structure GrovePi where
  address : Byte
  deriving DecidableEq, Repr

/-- The `Client` struct (goline.go:16-25). -/
structure Client where
  Broker : String
  Topic : String
  HomePIN : Byte
  GuestPIN : Byte
  client : Option MqttClient
  gp : Option GrovePi
  goals : Option (Chan String)
  done : Option (Chan Bool)
  deriving DecidableEq, Repr

/-- Function `NewClient` (goline.go:28-39).  The argument is the answer of
`grovepi.NewGrovePi(0x04)`.  Only `goals` is made, with capacity 5; every other
field keeps its zero value, `done` included. -/
def NewClient (dev : Except GoError GrovePi) : Except GoError Client :=
  let c : Client :=
    { Broker := "", Topic := "", HomePIN := 0, GuestPIN := 0, client := none, gp := none,
      goals := some { cap := 5, buf := [] }, done := none }
  match dev with
  | .error err => .error err
  | .ok g => .ok { c with gp := some g }

/-! ## The poller: `monitor` -/

/-- How far a worker function got. -/
inductive Status where
  | running
  | returned
  | panicked
  deriving DecidableEq, Repr

/-- The case a pass of the `select` in `monitor` takes (goline.go:55-58):
the stop signal, or the timer together with the answer `DigitalRead` gives to
the read of line 59. -/
inductive MonitorSelect where
  | done
  | tick (rd : DigitalRead)

/-- What one call of `monitor` has done so far: the stored reading `last`, the
values sent on `c.goals` (oldest first), the errors printed by `log.Printf`
and whether it is still running. -/
structure MonitorRun where
  last : Nat
  pushed : List String
  logged : List GoError
  status : Status
  deriving DecidableEq, Repr

/-- The `for` loop of `monitor` (goline.go:54-67), one list element per pass
of the `select`.  Sends on `c.goals` are taken to complete. -/
def monitorLoop (who : String) : List MonitorSelect → MonitorRun → MonitorRun
  | [], st => st
  | .done :: _, st => { st with status := .returned }
  | .tick rd :: rest, st =>
    match readPin rd with
    | none => { st with status := .panicked }
    | some (_, some err) => monitorLoop who rest { st with logged := st.logged ++ [err] }
    | some (value, none) =>
      if st.last ≠ value then
        monitorLoop who rest { st with pushed := st.pushed ++ [who], last := value }
      else
        monitorLoop who rest st

/-- Method `Client.monitor` (goline.go:49-68).  The `pin` argument only selects
the line `DigitalRead` samples, and the answers of those reads are arguments
here: `first` answers the read of line 50, whose value is stored in `last`
whether or not it came with an error; `sel` lists the passes of the loop. -/
def monitor (who : String) (first : DigitalRead) (sel : List MonitorSelect) : MonitorRun :=
  match readPin first with
  | none => { last := 0, pushed := [], logged := [], status := .panicked }
  | some (last, some err) =>
    monitorLoop who sel { last := last, pushed := [], logged := [err], status := .running }
  | some (last, none) =>
    monitorLoop who sel { last := last, pushed := [], logged := [], status := .running }

/-! ## JSON text

`publish` builds its payload with `json.Marshal` from the Go standard library.
A Go string is a Lean `String` (valid UTF-8 only), and a payload `[]byte`
is the text whose UTF-8 encoding it holds. -/

/-- The character `"` (U+0022). -/
def dquote : Char := Char.ofNat 34

/-- The backslash (U+005C). -/
def backslash : Char := Char.ofNat 92

/-- The opening brace (U+007B). -/
def lbrace : Char := Char.ofNat 123

/-- The closing brace (U+007D). -/
def rbrace : Char := Char.ofNat 125

/-- The colon (U+003A). -/
def colon : Char := Char.ofNat 58

/-- The comma (U+002C). -/
def comma : Char := Char.ofNat 44

/-- Lower-case hexadecimal digit of a value below 16 (the table `hex` of encoding/json). -/
def hexDigit (n : Nat) : Char :=
  if n < 10 then Char.ofNat (48 + n) else Char.ofNat (87 + n)

/-- The table `htmlSafeSet` of encoding/json: the ASCII characters from U+0020
up that are written as they are, which excludes the double quote, `&`, `<`,
`>` and the backslash. -/
def htmlSafe (ch : Char) : Bool :=
  decide (32 ≤ ch.toNat) && decide (ch.toNat < 128) && !(ch.toNat == 34) && !(ch.toNat == 38)
    && !(ch.toNat == 60) && !(ch.toNat == 62) && !(ch.toNat == 92)

/-- How encoding/json writes one character of a string with HTML escaping on
(the setting of `json.Marshal`): safe ASCII is copied, the double quote and the
backslash get a backslash, newline, carriage return and tab their letter, any
other ASCII character `\u00XX`, U+2028 and U+2029 `\u202X`, the rest is
copied. -/
def encodeChar (ch : Char) : List Char :=
  if ch.toNat < 128 then
    if htmlSafe ch then [ch]
    else if ch.toNat = 92 ∨ ch.toNat = 34 then [backslash, ch]
    else if ch.toNat = 10 then [backslash, 'n']
    else if ch.toNat = 13 then [backslash, 'r']
    else if ch.toNat = 9 then [backslash, 't']
    else [backslash, 'u', '0', '0', hexDigit (ch.toNat / 16), hexDigit (ch.toNat % 16)]
  else if ch.toNat = 8232 ∨ ch.toNat = 8233 then
    [backslash, 'u', '2', '0', '2', hexDigit (ch.toNat % 16)]
  else [ch]

/-- The escaped characters of a string, without the surrounding quotes. -/
def encodeChars : List Char → List Char
  | [] => []
  | ch :: rest => encodeChar ch ++ encodeChars rest

/-- A string as a JSON string literal. -/
def encodeString (s : String) : List Char :=
  dquote :: (encodeChars s.data ++ [dquote])

/-- The members of an object, in the order given, separated by commas. -/
def encodeMembers : List (String × String) → List Char
  | [] => []
  | [(k, v)] => encodeString k ++ [colon] ++ encodeString v
  | (k, v) :: rest => encodeString k ++ [colon] ++ encodeString v ++ [comma] ++ encodeMembers rest

/-- Go's `json.Marshal` on a `map[string]string`, given as its entries in key order
(the order encoding/json writes them in).  The error result is always `nil`
for this type. -/
def jsonMarshal (m : List (String × String)) : String × Option GoError :=
  (String.mk ([lbrace] ++ encodeMembers m ++ [rbrace]), none)

/-- Value of a hexadecimal digit. -/
def hexVal (ch : Char) : Option Nat :=
  if 48 ≤ ch.toNat ∧ ch.toNat ≤ 57 then some (ch.toNat - 48)
  else if 97 ≤ ch.toNat ∧ ch.toNat ≤ 102 then some (ch.toNat - 87)
  else if 65 ≤ ch.toNat ∧ ch.toNat ≤ 70 then some (ch.toNat - 55)
  else none

/-- Value of four hexadecimal digits. -/
def hex4 (a b c d : Char) : Option Nat :=
  match hexVal a, hexVal b, hexVal c, hexVal d with
  | some x, some y, some z, some w => some (((x * 16 + y) * 16 + z) * 16 + w)
  | _, _, _, _ => none

/-- The character a one-letter JSON escape stands for. -/
def unescape (ch : Char) : Option Char :=
  if ch.toNat = 34 then some dquote
  else if ch.toNat = 92 then some backslash
  else if ch = '/' then some '/'
  else if ch = 'b' then some (Char.ofNat 8)
  else if ch = 'f' then some (Char.ofNat 12)
  else if ch = 'n' then some (Char.ofNat 10)
  else if ch = 'r' then some (Char.ofNat 13)
  else if ch = 't' then some (Char.ofNat 9)
  else none

/-- The code point of `\uXXXX` with value `n`, looking at what follows for the
second half of a surrogate pair; an unpaired surrogate reads as U+FFFD. -/
def decodeU (n : Nat) (rest : List Char) : Char × List Char :=
  if 55296 ≤ n ∧ n < 57344 then
    match rest with
    | b :: u :: p :: q :: r :: t :: rest2 =>
      match hex4 p q r t with
      | some m =>
        if n < 56320 ∧ b = backslash ∧ u = 'u' ∧ 56320 ≤ m ∧ m < 57344 then
          (Char.ofNat (65536 + (n - 55296) * 1024 + (m - 56320)), rest2)
        else (Char.ofNat 65533, rest)
      | none => (Char.ofNat 65533, rest)
    | _ => (Char.ofNat 65533, rest)
  else (Char.ofNat n, rest)

/-- Reads a JSON string literal after its opening quote: the decoded string
and the input left after the closing quote.  The first argument bounds the
number of characters read. -/
def decodeString : Nat → List Char → List Char → Option (String × List Char)
  | 0, _, _ => none
  | fuel + 1, acc, input =>
    match input with
    | [] => none
    | ch :: rest =>
      if ch = dquote then some (String.mk acc.reverse, rest)
      else if ch = backslash then
        match rest with
        | [] => none
        | e :: rest2 =>
          if e = 'u' then
            match rest2 with
            | a :: b :: c :: d :: rest3 =>
              match hex4 a b c d with
              | none => none
              | some n => decodeString fuel ((decodeU n rest3).1 :: acc) (decodeU n rest3).2
            | _ => none
          else
            match unescape e with
            | none => none
            | some x => decodeString fuel (x :: acc) rest2
      else if ch.toNat < 32 then none
      else decodeString fuel (ch :: acc) rest

/-- Drops leading JSON white space (space, tab, line feed, carriage return). -/
def skipSpace : List Char → List Char
  | [] => []
  | ch :: rest =>
    if ch.toNat = 32 ∨ ch.toNat = 9 ∨ ch.toNat = 10 ∨ ch.toNat = 13 then skipSpace rest
    else ch :: rest

/-- Reads one object member, a string key, a colon and a string value. -/
def decodeMember (input : List Char) : Option ((String × String) × List Char) :=
  match skipSpace input with
  | [] => none
  | q :: rest =>
    if q = dquote then
      match decodeString (rest.length + 1) [] rest with
      | none => none
      | some (k, rest1) =>
        match skipSpace rest1 with
        | [] => none
        | sep :: rest2 =>
          if sep = colon then
            match skipSpace rest2 with
            | [] => none
            | q2 :: rest3 =>
              if q2 = dquote then
                match decodeString (rest3.length + 1) [] rest3 with
                | none => none
                | some (v, rest4) => some ((k, v), rest4)
              else none
          else none
    else none

/-- Reads the members of an object up to its closing brace; nothing but white
space may follow.  The first argument bounds the number of members. -/
def decodeMembers : Nat → List (String × String) → List Char → Option (List (String × String))
  | 0, _, _ => none
  | fuel + 1, acc, input =>
    match decodeMember input with
    | none => none
    | some (kv, rest) =>
      match skipSpace rest with
      | [] => none
      | ch :: rest2 =>
        if ch = comma then decodeMembers fuel (kv :: acc) rest2
        else if ch = rbrace then
          if skipSpace rest2 = [] then some (kv :: acc).reverse else none
        else none

/-- Decodes a JSON text that is an object with string members into its list of
fields, in order of appearance; `none` when the text is not such an object. -/
def jsonDecodeObject (payload : String) : Option (List (String × String)) :=
  match skipSpace payload.data with
  | [] => none
  | ch :: rest =>
    if ch = lbrace then
      match skipSpace rest with
      | [] => none
      | ch2 :: rest2 =>
        if ch2 = rbrace then
          if skipSpace rest2 = [] then some [] else none
        else decodeMembers (rest.length + 1) [] rest
    else none

/-! ## The publisher: `publish` and `listen` -/

/-- A request handed to the paho client library. -/
inductive BrokerCall where
  | newClient (opts : ClientOptions)
  | connect
  | publish (topic : String) (qos : Nat) (retained : Bool) (payload : String)
  | disconnect (quiesce : Nat)
  deriving DecidableEq, Repr

/-- The `mqtt.Token` a request returns, once complete: the code of the library
error it ended with, if any. -/
structure Token where
  code : Option Nat
  deriving DecidableEq, Repr

/-- Method `Token.Wait()`: paho blocks until the token is complete and then answers `true`. -/
def Token.Wait (_t : Token) : Bool := true

/-- Method `Token.Error()`: the library error the token ended with, or `nil`. -/
def Token.Error (t : Token) : Option GoError := t.code.map GoError.lib

/-- Method `Client.publish` (goline.go:84-93).  `tok` is the token the library returns
for the `Publish` request; the request is appended to the call log.  `none` is
the panic of calling `Publish` on a nil `c.client`. -/
def publish (c : Client) (who : String) (tok : Token) (calls : List BrokerCall) :
    Option (Option GoError × List BrokerCall) :=
  match jsonMarshal [("scorer", who)] with
  | (_, some err) => some (some err, calls)
  | (payload, none) =>
    match c.client with
    | none => none
    | some _ =>
      if tok.Wait && tok.Error ≠ none then
        some (tok.Error, calls ++ [.publish c.Topic 0 false payload])
      else
        some (none, calls ++ [.publish c.Topic 0 false payload])

/-- The case a pass of the `select` in `listen` takes (goline.go:72-75): the
stop signal, or a receive from `c.goals` together with the token the broker
library returns for the publish that follows. -/
inductive ListenSelect where
  | done
  | goal (tok : Token)

/-- What one call of `listen` has done so far: the values still buffered in
`c.goals` (oldest first), the requests handed to the broker library, the errors
printed by `log.Printf` and whether it is still running. -/
structure ListenRun where
  queue : List String
  calls : List BrokerCall
  logged : List GoError
  status : Status
  deriving DecidableEq, Repr

/-- Method `Client.listen` (goline.go:70-82), one list element per pass of the
`select`.  A receive takes the oldest buffered value; on an empty buffer the
receive case cannot fire and the run stops where it is. -/
def listen (c : Client) : List ListenSelect → ListenRun → ListenRun
  | [], st => st
  | .done :: _, st => { st with status := .returned }
  | .goal tok :: rest, st =>
    match st.queue with
    | [] => st
    | who :: queue =>
      match publish c who tok st.calls with
      | none => { st with queue := queue, status := .panicked }
      | some (some err, calls) =>
        listen c rest { st with queue := queue, calls := calls, logged := st.logged ++ [err] }
      | some (none, calls) =>
        listen c rest { st with queue := queue, calls := calls }

/-! ## The lifecycle: `Connect` -/

/-- The package variables `mqtt.DEBUG` and `mqtt.ERROR`: whether each has been
pointed at a standard-output logger. -/
structure MqttLoggers where
  debug : Bool
  error : Bool
  deriving DecidableEq, Repr

/-- What `Connect` leaves behind: the client, the package loggers, the broker
call log and the returned error. -/
structure ConnectResult where
  c : Client
  loggers : MqttLoggers
  calls : List BrokerCall
  err : Option GoError
  deriving DecidableEq, Repr

/-- Method `Client.Connect` (goline.go:96-115).  `tok` is the token the library
returns for the connect request; a handle whose connect ended without error
reports connected. -/
def Connect (c : Client) (loggers : MqttLoggers) (tok : Token) (calls : List BrokerCall) :
    ConnectResult :=
  if c.client.any MqttClient.IsConnected then
    { c := c, loggers := loggers, calls := calls, err := some (.text "already connected") }
  else
    let opts := (((NewClientOptions.AddBroker c.Broker).SetClientID "goline").SetKeepAlive
      (2 * second)).SetPingTimeout (1 * second)
    let handle : MqttClient := { opts := opts, connected := tok.Error.isNone }
    let c1 := { c with client := some handle }
    let calls1 := calls ++ [.newClient opts, .connect]
    if tok.Wait && tok.Error ≠ none then
      { c := c1, loggers := { debug := true, error := true }, calls := calls1, err := tok.Error }
    else
      { c := c1, loggers := { debug := true, error := true }, calls := calls1, err := none }

/-! ## The running pipeline: `Run`, its three workers and `Disconnect`

The goroutines started by `Run` are interleaved one step at a time.  A step is
a point where a goroutine talks to the outside (a pin read, a broker request)
or to a channel; a step that would block is not enabled.  `c.goals` is
buffered, so a send appends to its buffer and a receive takes its head.  The
stop channels `c1`, `c2`, `c3` are unbuffered and never nil, so a send on one
is a hand-off to a worker waiting at its `select`.  On a nil channel neither a
send nor a receive is ever enabled. -/

/-- The two pollers started by `Run` (goline.go:124-125). -/
inductive Poller where
  | home
  | guest
  deriving DecidableEq, Repr

/-- The tag `Run` gives each poller. -/
def Poller.who : Poller → String
  | .home => "home"
  | .guest => "guest"

/-- Where a `monitor` goroutine stands: before the read of line 50, at the
`select` of line 55 with its stored reading, in the send of line 63 with the
stored reading and the value just read, or returned. -/
inductive MonitorPc where
  | entry
  | select (last : Nat)
  | sending (last value : Nat)
  | returned
  deriving DecidableEq, Repr

/-- Where the `listen` goroutine stands: at the `select` of line 72, inside
`c.publish(who)` of line 76, or returned. -/
inductive ListenPc where
  | select
  | publishing (who : String)
  | returned
  deriving DecidableEq, Repr

/-- Where `Run` stands after starting the workers: the receive of line 127, the
sends of lines 129, 130 and 131, the disconnect of lines 133-135, or returned. -/
inductive RunPc where
  | waitDone
  | stopListen
  | stopHome
  | stopGuest
  | closing
  | returned
  deriving DecidableEq, Repr

/-- Where a caller of `Disconnect` stands: not called yet, in the send of line
140, or returned. -/
inductive DisconnectPc where
  | idle
  | sending
  | returned
  deriving DecidableEq, Repr

/-- The state of the pipeline.  `pushed` is the history of sends on `c.goals`
and `calls` the history of broker requests, both oldest first; `crashed` is set
when a goroutine panicked, which ends the process. -/
structure Sys where
  c : Client
  run : RunPc
  listen : ListenPc
  home : MonitorPc
  guest : MonitorPc
  disc : DisconnectPc
  calls : List BrokerCall
  logged : List GoError
  pushed : List String
  crashed : Bool
  deriving DecidableEq, Repr

/-- The state of poller `p`. -/
def Sys.poller (s : Sys) : Poller → MonitorPc
  | .home => s.home
  | .guest => s.guest

/-- Moves poller `p` to `pc`. -/
def Sys.setPoller (s : Sys) (p : Poller) (pc : MonitorPc) : Sys :=
  match p with
  | .home => { s with home := pc }
  | .guest => { s with guest := pc }

/-- The values buffered in `c.goals`, oldest first (none on a nil channel). -/
def Sys.queue (s : Sys) : List String :=
  match s.c.goals with
  | some ch => ch.buf
  | none => []

/-- One step of one goroutine, with the answer of the outside world where the
step asks for one. -/
inductive Action where
  | monitorInit (p : Poller) (rd : DigitalRead)
  | monitorTick (p : Poller) (rd : DigitalRead)
  | monitorSend (p : Poller)
  | listenRecv
  | listenPublish (tok : Token)
  | callDisconnect
  | doneHandoff
  | doneSend
  | doneRecv
  | stopListen
  | stopMonitor (p : Poller)
  | runClose

/-- The step `a` from state `s`; `none` when `a` is not enabled in `s`.

* `monitorInit`: the read of line 50; the value is stored even with an error.
* `monitorTick`: the timer case of the `select`, lines 58-62; a changed
  reading takes the poller to the send of line 63.
* `monitorSend`: the send of line 63 completes and line 64 stores the value.
* `listenRecv`: the receive of line 75.
* `listenPublish`: the call of line 76 returns, lines 77-79.
* `callDisconnect`: `Disconnect` is called and reaches the send of line 140.
* `doneHandoff`, `doneSend`, `doneRecv`: `c.done` passes a value from the send
  of line 140 to the receive of line 127, directly or through its buffer.
* `stopListen`, `stopMonitor`: the sends of lines 129-131 meet the `done`
  case of the worker's `select`.
* `runClose`: lines 133-135. -/
def step (a : Action) (s : Sys) : Option Sys :=
  if s.crashed then none else
  match a with
  | .monitorInit p rd =>
    match s.poller p with
    | .entry =>
      match readPin rd with
      | none => some { s with crashed := true }
      | some (last, some err) =>
        some ({ s with logged := s.logged ++ [err] }.setPoller p (.select last))
      | some (last, none) => some (s.setPoller p (.select last))
    | _ => none
  | .monitorTick p rd =>
    match s.poller p with
    | .select last =>
      match readPin rd with
      | none => some { s with crashed := true }
      | some (_, some err) => some { s with logged := s.logged ++ [err] }
      | some (value, none) =>
        if last ≠ value then some (s.setPoller p (.sending last value)) else some s
    | _ => none
  | .monitorSend p =>
    match s.poller p, s.c.goals with
    | .sending _ value, some ch =>
      if ch.buf.length < ch.cap then
        some ({ s with c := { s.c with goals := some { ch with buf := ch.buf ++ [p.who] } },
                       pushed := s.pushed ++ [p.who] }.setPoller p (.select value))
      else none
    | _, _ => none
  | .listenRecv =>
    match s.listen, s.c.goals with
    | .select, some ch =>
      match ch.buf with
      | [] => none
      | who :: buf =>
        some { s with c := { s.c with goals := some { ch with buf := buf } },
                      listen := .publishing who }
    | _, _ => none
  | .listenPublish tok =>
    match s.listen with
    | .publishing who =>
      match publish s.c who tok s.calls with
      | none => some { s with crashed := true }
      | some (some err, calls) =>
        some { s with calls := calls, logged := s.logged ++ [err], listen := .select }
      | some (none, calls) => some { s with calls := calls, listen := .select }
    | _ => none
  | .callDisconnect =>
    match s.disc with
    | .idle => some { s with disc := .sending }
    | _ => none
  | .doneHandoff =>
    match s.disc, s.run, s.c.done with
    | .sending, .waitDone, some ch =>
      if ch.buf = [] then some { s with disc := .returned, run := .stopListen } else none
    | _, _, _ => none
  | .doneSend =>
    match s.disc, s.c.done with
    | .sending, some ch =>
      if ch.buf.length < ch.cap then
        some { s with c := { s.c with done := some { ch with buf := ch.buf ++ [true] } },
                      disc := .returned }
      else none
    | _, _ => none
  | .doneRecv =>
    match s.run, s.c.done with
    | .waitDone, some ch =>
      match ch.buf with
      | [] => none
      | _ :: buf =>
        some { s with c := { s.c with done := some { ch with buf := buf } }, run := .stopListen }
    | _, _ => none
  | .stopListen =>
    match s.run, s.listen with
    | .stopListen, .select => some { s with run := .stopHome, listen := .returned }
    | _, _ => none
  | .stopMonitor .home =>
    match s.run, s.home with
    | .stopHome, .select _ => some { s with run := .stopGuest, home := .returned }
    | _, _ => none
  | .stopMonitor .guest =>
    match s.run, s.guest with
    | .stopGuest, .select _ => some { s with run := .closing, guest := .returned }
    | _, _ => none
  | .runClose =>
    match s.run with
    | .closing =>
      match s.c.client with
      | some h =>
        if h.IsConnected then
          some { s with c := { s.c with client := some { h with connected := false } },
                        calls := s.calls ++ [.disconnect 250], run := .returned }
        else some { s with run := .returned }
      | none => some { s with run := .returned }
    | _ => none

/-- Runs a schedule, oldest step first; `none` when one of its steps is not enabled. -/
def exec : List Action → Sys → Option Sys
  | [], s => some s
  | a :: rest, s =>
    match step a s with
    | none => none
    | some s1 => exec rest s1

/-- The state in which `Run` has made its stop channels and started the three
workers (goline.go:119-125) and nobody has called `Disconnect` yet; `calls` is
the broker call log so far. -/
def start (c : Client) (calls : List BrokerCall) : Sys :=
  { c := c, run := .waitDone, listen := .select, home := .entry, guest := .entry,
    disc := .idle, calls := calls, logged := [], pushed := [], crashed := false }

/-! ## Startup: `main` -/

/-- The constant `grovepi.D7`, the digital port 7 of the board. -/
def D7 : Byte := 7

/-- The constant `grovepi.D8`, the digital port 8 of the board. -/
def D8 : Byte := 8

/-- The startup of `main` (goline.go:144-154): `NewClient`, the four exported
fields, `Connect`.  An error of either call ends the process (`log.Fatal`);
otherwise the client and the broker call log are what `Run` starts from. -/
def mainSetup (dev : Except GoError GrovePi) (tok : Token) :
    Except GoError (Client × List BrokerCall) :=
  match NewClient dev with
  | .error err => .error err
  | .ok c0 =>
    match Connect { c0 with Broker := "tcp://localhost:1883", Topic := "goline/goals",
                            HomePIN := D7, GuestPIN := D8 }
        { debug := false, error := false } tok [] with
    | { err := some err, .. } => .error err
    | { c := c, calls := calls, err := none, .. } => .ok (c, calls)

/-! ## Vocabulary of the claims -/

/-- The reading the specification assigns to a raw buffer: its bytes 1 to 4 as
a little-endian number, `raw[1] + 2^8 raw[2] + 2^16 raw[3] + 2^24 raw[4]`. -/
def pinValue (raw : List Byte) : Nat :=
  (raw.getD 1 0).val + 2 ^ 8 * (raw.getD 2 0).val + 2 ^ 16 * (raw.getD 3 0).val
    + 2 ^ 24 * (raw.getD 4 0).val

/-- A five-byte buffer whose reading is `v % 2 ^ 32`, with first byte 0. -/
def pinBytes (v : Nat) : List Byte :=
  [0, Fin.ofNat v, Fin.ofNat (v / 2 ^ 8), Fin.ofNat (v / 2 ^ 16), Fin.ofNat (v / 2 ^ 24)]

/-- The indices `i ≥ 1` of a reading sequence at which the reading differs from
the one before, in increasing order. -/
def changeIndices (r : List Nat) : List Nat :=
  (List.range r.length).filter (fun i => decide (1 ≤ i) && decide (r.getD i 0 ≠ r.getD (i - 1) 0))

/-- The events the specification expects of a poller tagged `who` that reads
the sequence `r`: the tag, once per change index. -/
def expectedEvents (who : String) (r : List Nat) : List String :=
  (changeIndices r).map (fun _ => who)

/-- The successful reads of a sequence of read answers. -/
def dropFailed (rds : List DigitalRead) : List DigitalRead :=
  rds.filter (fun rd => match rd with
    | .ok _ => true
    | .error _ => false)

/-- The events `monitor` pushes on a sequence of read answers, the first being
the read before the loop; an empty sequence has no events. -/
def eventsOn (who : String) : List DigitalRead → List String
  | [] => []
  | first :: rest => (monitor who first (rest.map MonitorSelect.tick)).pushed

/-- The session options the specification prescribes for `Connect`: the
client's broker address as only broker, client id "goline", keep-alive 2
seconds, ping timeout 1 second. -/
def sessionOptions (broker : String) : ClientOptions :=
  { brokers := [broker], clientID := "goline", keepAlive := 2 * second,
    pingTimeout := 1 * second }

/-- The payload the specification prescribes for a tag: the text
`{"scorer":"<who>"}`. -/
def payloadOf (who : String) : String :=
  "\x7b\"scorer\":\"" ++ who ++ "\"\x7d"

/-- The publish request the specification prescribes for a tag on a topic:
delivery-quality level 0, not retained. -/
def messageOf (topic who : String) : BrokerCall :=
  .publish topic 0 false (payloadOf who)

/-- The publish requests of a broker call log, oldest first. -/
def publishesOf (calls : List BrokerCall) : List BrokerCall :=
  calls.filter (fun call => match call with
    | .publish _ _ _ _ => true
    | _ => false)

/-- The event the publisher holds between its receive and the end of its
publish call. -/
def ListenPc.inflight : ListenPc → List String
  | .publishing who => [who]
  | _ => []

/-- A client made by `NewClient` whose exported fields and broker handle may
have been set since, as `main` does: `goals` and `done` are what `NewClient`
left. -/
def FromNewClient (c : Client) : Prop :=
  ∃ dev c0, NewClient dev = .ok c0 ∧ c.goals = c0.goals ∧ c.done = c0.done

/-- The schedule that empties the publisher: its pending publish call returns,
then each buffered event is received and published; the tokens answer the
publish calls in order. -/
def drain : ListenPc → Nat → List Token → List Action
  | .publishing _, n, tok :: toks => .listenPublish tok :: drain .select n toks
  | .select, n + 1, tok :: toks => .listenRecv :: .listenPublish tok :: drain .select n toks
  | _, _, _ => []

/-- The scenario of the specification, after both pollers stored the reading
0: home reads 0, 0, 1, then guest reads 0, 1, then the publisher handles what
is queued; the broker accepts both messages. -/
def scenario : List Action :=
  [ .monitorInit .home (.ok (pinBytes 0)), .monitorInit .guest (.ok (pinBytes 0)),
    .monitorTick .home (.ok (pinBytes 0)), .monitorTick .home (.ok (pinBytes 0)),
    .monitorTick .home (.ok (pinBytes 1)), .monitorSend .home,
    .monitorTick .guest (.ok (pinBytes 0)), .monitorTick .guest (.ok (pinBytes 1)),
    .monitorSend .guest,
    .listenRecv, .listenPublish { code := none }, .listenRecv, .listenPublish { code := none } ]

/-! ## Invariants of the pipeline -/

/-- The `goals` channel has capacity 5 and buffers at most 5 events. -/
def GoalsBounded (s : Sys) : Prop :=
  ∃ q, s.c.goals = some { cap := 5, buf := q } ∧ q.length ≤ 5

/-- The publish request `publish` makes for an event on a topic. -/
def requestOf (topic who : String) : BrokerCall :=
  .publish topic 0 false (jsonMarshal [("scorer", who)]).1

/-- Accounting of the events: what was pushed so far is, in push order, what
the broker was asked to publish since the start, then the event the publisher
holds, then the buffered events; the topic is the one the pipeline started with. -/
def Fifo (topic : String) (calls0 : List BrokerCall) (s : Sys) : Prop :=
  s.c.Topic = topic
  ∧ ∃ sent, s.pushed = sent ++ s.listen.inflight ++ s.queue
      ∧ publishesOf s.calls = publishesOf calls0 ++ sent.map (requestOf topic)

/-- Every event pushed so far carries one of the two tags of `Run`. -/
def Tagged (s : Sys) : Prop :=
  ∀ e ∈ s.pushed, e = "home" ∨ e = "guest"

/-- The `done` channel is nil and nothing has got past it: `Run` is at its
receive of line 127, the caller of `Disconnect` has not returned and no worker
has returned. -/
def Waiting (s : Sys) : Prop :=
  s.c.done = none ∧ s.run = .waitDone ∧ s.disc ≠ .returned ∧ s.listen ≠ .returned
    ∧ s.home ≠ .returned ∧ s.guest ≠ .returned

/-- The client holds a broker handle. -/
def HasHandle (s : Sys) : Prop :=
  s.c.client.isSome = true

/-! ## Concrete runs -/

/-- A schedule that fills the queue: the home poller stores 0, then reads
1, 0, 1, 0, 1, pushing after each read, and then reads 0 with nobody receiving. -/
def fillQueue : List Action :=
  [ .monitorInit .home (.ok (pinBytes 0)),
    .monitorTick .home (.ok (pinBytes 1)), .monitorSend .home,
    .monitorTick .home (.ok (pinBytes 0)), .monitorSend .home,
    .monitorTick .home (.ok (pinBytes 1)), .monitorSend .home,
    .monitorTick .home (.ok (pinBytes 0)), .monitorSend .home,
    .monitorTick .home (.ok (pinBytes 1)), .monitorSend .home,
    .monitorTick .home (.ok (pinBytes 0)) ]

/-- The client `main` runs with when the board opens on address 4 and the
broker accepts the connection (`mainSetup`). -/
def mainClient : Client :=
  { Broker := "tcp://localhost:1883", Topic := "goline/goals", HomePIN := D7, GuestPIN := D8,
    client := some { opts := sessionOptions "tcp://localhost:1883", connected := true },
    gp := some { address := 4 }, goals := some { cap := 5, buf := [] }, done := none }

/-- The state `fillQueue` leads to from `start mainClient []`: five events
queued, the home poller in its send with stored reading 1 and new reading 0. -/
def fullState : Sys :=
  { c := { mainClient with
             goals := some { cap := 5, buf := ["home", "home", "home", "home", "home"] } },
    run := .waitDone, listen := .select, home := .sending 1 0, guest := .entry, disc := .idle,
    calls := [], logged := [], pushed := ["home", "home", "home", "home", "home"],
    crashed := false }

/-- The broker call log `main` has made when it calls `Run`: the session is
created and connected. -/
def mainCalls : List BrokerCall :=
  [.newClient (sessionOptions "tcp://localhost:1883"), .connect]

/-- The state `scenario` leads to from `start mainClient mainCalls`: both
pollers store 1, the queue is empty again, and the broker was asked to publish
the home message and then the guest message. -/
def scenarioEnd : Sys :=
  { c := mainClient, run := .waitDone, listen := .select, home := .select 1, guest := .select 1,
    disc := .idle,
    calls := mainCalls ++ [.publish "goline/goals" 0 false "\x7b\"scorer\":\"home\"\x7d",
                           .publish "goline/goals" 0 false "\x7b\"scorer\":\"guest\"\x7d"],
    logged := [], pushed := ["home", "guest"], crashed := false }

/-! ## Theorems -/

/-- On four bytes the shifts and ors of `binary.LittleEndian.Uint32` add up the
bytes with weights `1`, `2 ^ 8`, `2 ^ 16`, `2 ^ 24`. -/
theorem littleEndianUint32_eq (b0 b1 b2 b3 : Byte) (rest : List Byte) :
    littleEndianUint32 (b0 :: b1 :: b2 :: b3 :: rest)
      = some (b0.val + 2 ^ 8 * b1.val + 2 ^ 16 * b2.val + 2 ^ 24 * b3.val) := by
  have h0 := b0.isLt
  have h1 := b1.isLt
  have h2 := b2.isLt
  have h3 := b3.isLt
  have e1 : 2 ^ 8 * b1.val + b0.val = 2 ^ 8 * b1.val ||| b0.val :=
    @Nat.mul_add_lt_is_or 8 b0.val (by omega) b1.val
  have e2 : 2 ^ 16 * b2.val + (2 ^ 8 * b1.val + b0.val)
      = 2 ^ 16 * b2.val ||| (2 ^ 8 * b1.val + b0.val) :=
    @Nat.mul_add_lt_is_or 16 (2 ^ 8 * b1.val + b0.val) (by omega) b2.val
  have e3 : 2 ^ 24 * b3.val + (2 ^ 16 * b2.val + (2 ^ 8 * b1.val + b0.val))
      = 2 ^ 24 * b3.val ||| (2 ^ 16 * b2.val + (2 ^ 8 * b1.val + b0.val)) :=
    @Nat.mul_add_lt_is_or 24 (2 ^ 16 * b2.val + (2 ^ 8 * b1.val + b0.val)) (by omega) b3.val
  have m0 : uint32 b0.val = b0.val := by
    simp only [uint32]
    omega
  have m1 : uint32 (uint32 b1.val <<< 8) = 2 ^ 8 * b1.val := by
    simp only [uint32, Nat.shiftLeft_eq]
    omega
  have m2 : uint32 (uint32 b2.val <<< 16) = 2 ^ 16 * b2.val := by
    simp only [uint32, Nat.shiftLeft_eq]
    omega
  have m3 : uint32 (uint32 b3.val <<< 24) = 2 ^ 24 * b3.val := by
    simp only [uint32, Nat.shiftLeft_eq]
    omega
  simp only [littleEndianUint32, m0, m1, m2, m3]
  apply congrArg some
  rw [Nat.or_comm b0.val, Nat.or_comm _ (2 ^ 16 * b2.val), Nat.or_comm _ (2 ^ 24 * b3.val),
    ← e1, ← e2, ← e3]
  omega

/-- On a buffer of at least five bytes `readPin` returns the little-endian
value of bytes 1 to 4, without error. -/
theorem readPin_ok (raw : List Byte) (h : 5 ≤ raw.length) :
    readPin (.ok raw) = some (pinValue raw, none) := by
  match raw, h with
  | b0 :: b1 :: b2 :: b3 :: b4 :: rest, _ =>
    have hs : slice (b0 :: b1 :: b2 :: b3 :: b4 :: rest) 1 5 = some [b1, b2, b3, b4] := by
      simp [slice]
    simp only [readPin, hs, littleEndianUint32_eq, pinValue, List.getD_cons_succ,
      List.getD_cons_zero]

/-- A failed line read makes `readPin` return the value 0 with the error. -/
theorem readPin_error (err : GoError) : readPin (.error err) = some (0, some err) := rfl

/-- The reading of a buffer is below `2 ^ 32`. -/
theorem pinValue_lt (raw : List Byte) : pinValue raw < 2 ^ 32 := by
  have h1 := (raw.getD 1 0).isLt
  have h2 := (raw.getD 2 0).isLt
  have h3 := (raw.getD 3 0).isLt
  have h4 := (raw.getD 4 0).isLt
  simp only [pinValue]
  omega

/-- Claim C9: on a buffer `raw` of at least 5 bytes `readPin` returns, with no
error, `raw[1] + 2^8 raw[2] + 2^16 raw[3] + 2^24 raw[4]`; that value is below
`2^32` and is the same for every buffer that agrees with `raw` on bytes 1 to
4; when the line read fails `readPin` returns that error with the value 0. -/
theorem readPin_little_endian (raw : List Byte) (h : 5 ≤ raw.length) :
    readPin (.ok raw) = some (pinValue raw, none)
    ∧ pinValue raw < 2 ^ 32
    ∧ (∀ raw2 : List Byte, 5 ≤ raw2.length →
        (∀ i, 1 ≤ i → i ≤ 4 → raw2.getD i 0 = raw.getD i 0) →
        readPin (.ok raw2) = readPin (.ok raw))
    ∧ ∀ err, readPin (.error err) = some (0, some err) := by
  refine ⟨readPin_ok raw h, pinValue_lt raw, ?_, fun _ => rfl⟩
  intro raw2 h2 hsame
  rw [readPin_ok raw h, readPin_ok raw2 h2]
  simp only [pinValue, hsame 1 (by omega) (by omega), hsame 2 (by omega) (by omega),
    hsame 3 (by omega) (by omega), hsame 4 (by omega) (by omega)]

/-- Witness of C9: the buffer `[9, 1, 2, 0, 0, 7]` reads as `1 + 2 * 2^8 = 513`. -/
theorem readPin_little_endian_witness :
    5 ≤ ([9, 1, 2, 0, 0, 7] : List Byte).length
    ∧ readPin (.ok [9, 1, 2, 0, 0, 7]) = some (513, none) :=
  ⟨by decide, (readPin_little_endian [9, 1, 2, 0, 0, 7] (by decide)).1⟩

/-! ### The poller -/

/-- A single reading has no change index. -/
theorem expectedEvents_single (who : String) (a : Nat) : expectedEvents who [a] = [] := by
  simp [expectedEvents, changeIndices, List.range_succ]

/-- The expected events of a sequence with at least two readings: the first
transition, then the expected events of the sequence without its first reading. -/
theorem expectedEvents_cons (who : String) (a b : Nat) (rest : List Nat) :
    expectedEvents who (a :: b :: rest)
      = (if a ≠ b then [who] else []) ++ expectedEvents who (b :: rest) := by
  have hidx : changeIndices (a :: b :: rest)
      = (if a ≠ b then [1] else []) ++ (changeIndices (b :: rest)).map Nat.succ := by
    simp only [changeIndices, List.length_cons]
    rw [List.range_succ_eq_map, List.range_succ_eq_map]
    simp only [List.filter_cons, List.filter_map, List.map_cons, List.map_map]
    by_cases hab : a = b
    · subst hab
      simp [Function.comp_def]
    · have hba : ¬ b = a := fun h => hab h.symm
      simp [Function.comp_def, hab, hba]
  simp only [expectedEvents, hidx, List.map_append, List.map_map]
  by_cases hab : a = b <;> simp [hab, Function.comp_def]

/-- The loop of `monitor` on passes that all read successfully: it pushes the
expected events of the stored reading followed by the new readings, logs
nothing, keeps running, and stores the last reading. -/
theorem monitorLoop_ok (who : String) (raws : List (List Byte))
    (h : ∀ raw ∈ raws, 5 ≤ raw.length) (st : MonitorRun) :
    monitorLoop who (raws.map (fun raw => MonitorSelect.tick (.ok raw))) st
      = { st with pushed := st.pushed ++ expectedEvents who (st.last :: raws.map pinValue),
                  last := (raws.map pinValue).getLastD st.last } := by
  induction raws generalizing st with
  | nil => simp [monitorLoop, expectedEvents_single]
  | cons raw raws ih =>
    have hraw : 5 ≤ raw.length := h raw (List.mem_cons_self _ _)
    have hrest : ∀ r ∈ raws, 5 ≤ r.length := fun r hr => h r (List.mem_cons_of_mem _ hr)
    simp only [List.map_cons, monitorLoop, readPin_ok raw hraw, expectedEvents_cons]
    by_cases hv : st.last = pinValue raw
    · simp only [hv, ne_eq, not_true_eq_false, if_false, ih hrest, List.nil_append]
      cases raws <;> simp [List.getLastD, hv]
    · simp only [hv, ne_eq, not_false_eq_true, if_true, ih hrest, List.append_assoc]
      cases raws <;> simp [List.getLastD]

/-- A poller whose reads all succeed pushes the expected events of its readings. -/
theorem monitor_ok_pushed (who : String) (raw0 : List Byte) (raws : List (List Byte))
    (h0 : 5 ≤ raw0.length) (h : ∀ raw ∈ raws, 5 ≤ raw.length) :
    (monitor who (.ok raw0) (raws.map (fun raw => MonitorSelect.tick (.ok raw)))).pushed
      = expectedEvents who (pinValue raw0 :: raws.map pinValue) := by
  simp only [monitor, readPin_ok raw0 h0, monitorLoop_ok who raws h, List.nil_append]

/-- The buffer `pinBytes v` reads as `v` when `v` is a `uint32`. -/
theorem pinValue_pinBytes (v : Nat) (hv : v < 2 ^ 32) : pinValue (pinBytes v) = v := by
  have e1 : (Fin.ofNat v : Byte).val = v % 256 := rfl
  have e2 : (Fin.ofNat (v / 2 ^ 8) : Byte).val = v / 2 ^ 8 % 256 := rfl
  have e3 : (Fin.ofNat (v / 2 ^ 16) : Byte).val = v / 2 ^ 16 % 256 := rfl
  have e4 : (Fin.ofNat (v / 2 ^ 24) : Byte).val = v / 2 ^ 24 % 256 := rfl
  simp only [pinValue, pinBytes, List.getD_cons_succ, List.getD_cons_zero, e1, e2, e3, e4]
  omega

/-- Claim C1: a poller `monitor(pin, who)` whose reads all succeed, with
readings `r0` (before the loop) and `r1 … rn` (the loop passes), whatever the
buffers that carry them and for every sequence of `uint32` readings, pushes exactly
one event per index `i ≥ 1` with `r_i ≠ r_(i-1)`, in index order, each of them
its own tag `who`, so the poller tagged "home" never pushes "guest"; a constant
sequence yields no event, and the readings `1, 1, 2, 2, 3` yield two events, at
indices 2 and 4 (the readings 2 and 3). -/
theorem monitor_pushes_one_event_per_change (who : String) (raw0 : List Byte)
    (raws : List (List Byte)) (h0 : 5 ≤ raw0.length) (h : ∀ raw ∈ raws, 5 ≤ raw.length) :
    (monitor who (.ok raw0) (raws.map (fun raw => MonitorSelect.tick (.ok raw)))).pushed
        = expectedEvents who (pinValue raw0 :: raws.map pinValue)
    ∧ (∀ e ∈ (monitor who (.ok raw0) (raws.map (fun raw => MonitorSelect.tick (.ok raw)))).pushed,
        e = who)
    ∧ "guest" ∉ (monitor "home" (.ok raw0)
        (raws.map (fun raw => MonitorSelect.tick (.ok raw)))).pushed
    ∧ (∀ (r0 : Nat) (rs : List Nat), r0 < 2 ^ 32 → (∀ r ∈ rs, r < 2 ^ 32) →
        (monitor who (.ok (pinBytes r0))
          (rs.map (fun r => MonitorSelect.tick (.ok (pinBytes r))))).pushed
          = expectedEvents who (r0 :: rs))
    ∧ ((∀ raw ∈ raws, pinValue raw = pinValue raw0) →
        (monitor who (.ok raw0) (raws.map (fun raw => MonitorSelect.tick (.ok raw)))).pushed = [])
    ∧ changeIndices [1, 1, 2, 2, 3] = [2, 4]
    ∧ (monitor who (.ok (pinBytes 1))
        [.tick (.ok (pinBytes 1)), .tick (.ok (pinBytes 2)), .tick (.ok (pinBytes 2)),
         .tick (.ok (pinBytes 3))]).pushed = [who, who] := by
  have hp := monitor_ok_pushed who raw0 raws h0 h
  refine ⟨hp, ?_, ?_, ?_, ?_, by decide, ?_⟩
  · intro e he
    rw [hp] at he
    simp only [expectedEvents, List.mem_map] at he
    obtain ⟨_, _, rfl⟩ := he
    rfl
  · intro he
    rw [monitor_ok_pushed "home" raw0 raws h0 h] at he
    simp only [expectedEvents, List.mem_map] at he
    obtain ⟨_, _, hne⟩ := he
    exact absurd hne (by decide)
  · intro r0 rs hr0 hrs
    have hm := monitor_ok_pushed who (pinBytes r0) (rs.map pinBytes) (by simp [pinBytes])
      (by
        intro raw hraw
        obtain ⟨r, _, rfl⟩ := List.mem_map.mp hraw
        simp [pinBytes])
    simp only [List.map_map] at hm
    have hvals : List.map (pinValue ∘ pinBytes) rs = rs := by
      conv_rhs => rw [← List.map_id rs]
      apply List.map_congr_left
      intro r hr
      exact pinValue_pinBytes r (hrs r hr)
    rw [pinValue_pinBytes r0 hr0, hvals] at hm
    rw [← hm]
    congr 2
  · intro hconst
    rw [hp]
    clear hp h
    induction raws with
    | nil => exact expectedEvents_single who _
    | cons raw raws ih =>
      have h1 : pinValue raw = pinValue raw0 := hconst raw (List.mem_cons_self _ _)
      simp only [List.map_cons, expectedEvents_cons, h1, ne_eq, not_true_eq_false, if_false,
        List.nil_append]
      exact ih (fun r hr => hconst r (List.mem_cons_of_mem _ hr))
  · have h5 := monitor_ok_pushed who (pinBytes 1) [pinBytes 1, pinBytes 2, pinBytes 2, pinBytes 3]
      (by decide) (by decide)
    have hv : pinValue (pinBytes 1) :: [pinBytes 1, pinBytes 2, pinBytes 2, pinBytes 3].map pinValue
        = [1, 1, 2, 2, 3] := by decide
    have hi : changeIndices [1, 1, 2, 2, 3] = [2, 4] := by decide
    rw [hv] at h5
    simpa [expectedEvents, hi] using h5

/-- Witness of C1: the poller tagged "home" on the buffers reading 1, 1, 2, 2, 3. -/
theorem monitor_pushes_one_event_per_change_witness :
    (monitor "home" (.ok (pinBytes 1))
      ([pinBytes 1, pinBytes 2, pinBytes 2, pinBytes 3].map
        (fun raw => MonitorSelect.tick (.ok raw)))).pushed
      = expectedEvents "home" (pinValue (pinBytes 1)
          :: [pinBytes 1, pinBytes 2, pinBytes 2, pinBytes 3].map pinValue) :=
  (monitor_pushes_one_event_per_change "home" (pinBytes 1)
    [pinBytes 1, pinBytes 2, pinBytes 2, pinBytes 3] (by decide) (by decide)).1

/-- Claim C2: one pass of the loop of `monitor` from the stored value `last`.
A successful read of `v` pushes exactly one event when `v ≠ last` and none when
`v = last`, and stores `v`; a failed read pushes nothing and leaves `last`
stored; in both cases the loop goes on with the remaining passes, so the next
successful reading after a failure is compared against `last`. -/
theorem monitor_iteration (who : String) (st : MonitorRun) (rest : List MonitorSelect) :
    (∀ raw : List Byte, 5 ≤ raw.length →
      monitorLoop who [.tick (.ok raw)] st
          = { st with pushed := st.pushed ++ (if pinValue raw ≠ st.last then [who] else []),
                      last := pinValue raw }
      ∧ monitorLoop who (.tick (.ok raw) :: rest) st
          = monitorLoop who rest (monitorLoop who [.tick (.ok raw)] st))
    ∧ (∀ err : GoError,
      monitorLoop who [.tick (.error err)] st = { st with logged := st.logged ++ [err] }
      ∧ monitorLoop who (.tick (.error err) :: rest) st
          = monitorLoop who rest (monitorLoop who [.tick (.error err)] st))
    ∧ (∀ (err : GoError) (raw : List Byte), 5 ≤ raw.length →
      monitorLoop who [.tick (.error err), .tick (.ok raw)] st
          = { st with pushed := st.pushed ++ (if pinValue raw ≠ st.last then [who] else []),
                      last := pinValue raw, logged := st.logged ++ [err] }) := by
  refine ⟨?_, ?_, ?_⟩
  · intro raw hraw
    by_cases hv : st.last = pinValue raw
    · cases st
      simp only at hv
      subst hv
      simp [monitorLoop, readPin_ok raw hraw]
    · have hv2 : ¬ pinValue raw = st.last := fun h => hv h.symm
      simp [monitorLoop, readPin_ok raw hraw, hv, hv2]
  · intro err
    simp [monitorLoop, readPin_error]
  · intro err raw hraw
    by_cases hv : st.last = pinValue raw
    · cases st
      simp only at hv
      subst hv
      simp [monitorLoop, readPin_ok raw hraw, readPin_error]
    · have hv2 : ¬ pinValue raw = st.last := fun h => hv h.symm
      simp [monitorLoop, readPin_ok raw hraw, readPin_error, hv, hv2]

/-- Witness of C2: from the stored value 0, a pass reading 1 pushes one event
and stores 1. -/
theorem monitor_iteration_witness :
    5 ≤ (pinBytes 1).length
    ∧ monitorLoop "home" [.tick (.ok (pinBytes 1))]
        { last := 0, pushed := [], logged := [], status := .running }
      = { last := 1, pushed := ["home"], logged := [], status := .running } :=
  ⟨by decide,
   ((monitor_iteration "home" { last := 0, pushed := [], logged := [], status := .running }
      []).1 (pinBytes 1) (by decide)).1⟩

/-- Claim C3, at the failing input: when the read before the loop fails and the
first pass reads 1, `monitor` compares that reading against the 0 returned with
the error and pushes an event, whereas on the same sequence without the failed
read it pushes none. -/
theorem monitor_compares_failed_first_read (who : String) (err : GoError) :
    eventsOn who [.error err, .ok (pinBytes 1)] = [who]
    ∧ eventsOn who (dropFailed [.error err, .ok (pinBytes 1)]) = [] := by
  constructor
  · simp [eventsOn, monitor, monitorLoop, readPin_ok (pinBytes 1) (by decide), readPin_error,
      show pinValue (pinBytes 1) = 1 by decide]
  · simp [eventsOn, dropFailed, monitor, monitorLoop, readPin_ok (pinBytes 1) (by decide)]

/-! ### The publisher -/

/-- For the two tags `json.Marshal` writes the prescribed payload. -/
theorem jsonMarshal_scorer (p : Poller) :
    jsonMarshal [("scorer", p.who)] = (payloadOf p.who, none) := by
  cases p <;> decide

/-- With a broker handle in place `publish` hands the library one publish
request, on `c.Topic`, at level 0, not retained, and returns the token's error. -/
theorem publish_some (c : Client) (h : MqttClient) (hc : c.client = some h) (who : String)
    (tok : Token) (calls : List BrokerCall) :
    publish c who tok calls
      = some (tok.Error,
          calls ++ [.publish c.Topic 0 false (jsonMarshal [("scorer", who)]).1]) := by
  simp only [publish, jsonMarshal, hc, Token.Wait, Bool.true_and]
  by_cases he : tok.Error = none <;> simp [he]

/-- Claim C6: `listen` on a client that holds a broker handle, taking `toks.length`
events off a queue `q` with the broker answering the publish requests by
`toks` (any pattern of successes and failures): the broker gets exactly one
publish request per dequeued event, in queue order; a failed publish is logged
and nothing else, the queue only loses the dequeued events, and the loop is
still running after the last of them. -/
theorem listen_publishes_each_event_once (c : Client) (h : MqttClient)
    (hc : c.client = some h) (toks : List Token) (q : List String)
    (hlen : toks.length ≤ q.length) (calls : List BrokerCall) (logged : List GoError) :
    listen c (toks.map ListenSelect.goal)
        { queue := q, calls := calls, logged := logged, status := .running }
      = { queue := q.drop toks.length,
          calls := calls ++ (q.take toks.length).map
            (fun who => .publish c.Topic 0 false (jsonMarshal [("scorer", who)]).1),
          logged := logged ++ toks.filterMap Token.Error,
          status := .running } := by
  induction toks generalizing q calls logged with
  | nil => simp [listen]
  | cons tok toks ih =>
    match q, hlen with
    | who :: q, hlen =>
      have hlen2 : toks.length ≤ q.length := by simpa using hlen
      simp only [List.map_cons, listen, publish_some c h hc]
      cases he : tok.Error with
      | none => simp [ih q hlen2, he]
      | some err => simp [ih q hlen2, he]

/-- Witness of C6: two queued events, the first publish failing. -/
theorem listen_publishes_each_event_once_witness :
    (listen { Broker := "", Topic := "t", HomePIN := 0, GuestPIN := 0,
              client := some { opts := NewClientOptions, connected := true },
              gp := none, goals := none, done := none }
        ([{ code := some 1 }, { code := none }].map ListenSelect.goal)
        { queue := ["home", "guest"], calls := [], logged := [], status := .running }).calls
      = [.publish "t" 0 false "\x7b\"scorer\":\"home\"\x7d",
         .publish "t" 0 false "\x7b\"scorer\":\"guest\"\x7d"] :=
  congrArg ListenRun.calls
    (listen_publishes_each_event_once
      { Broker := "", Topic := "t", HomePIN := 0, GuestPIN := 0,
        client := some { opts := NewClientOptions, connected := true },
        gp := none, goals := none, done := none }
      { opts := NewClientOptions, connected := true } rfl
      [{ code := some 1 }, { code := none }] ["home", "guest"] (by decide) [] [])

/-! ### The lifecycle -/

/-- Claim C7: `Connect` returns the error "already connected" exactly when the
client holds a broker handle that reports connected, and then changes nothing
and asks nothing of the broker library; otherwise it makes a new handle for the
server `c.Broker` with client id "goline", keep-alive 2 s and ping timeout 1 s,
asks it to connect, and returns the error of that connect, `nil` when there is
none. -/
theorem Connect_already_connected_iff (c : Client) (loggers : MqttLoggers) (tok : Token)
    (calls : List BrokerCall) :
    ((Connect c loggers tok calls).err = some (.text "already connected")
        ↔ ∃ h, c.client = some h ∧ h.IsConnected = true)
    ∧ ((∃ h, c.client = some h ∧ h.IsConnected = true) →
        Connect c loggers tok calls
          = { c := c, loggers := loggers, calls := calls,
              err := some (.text "already connected") })
    ∧ ((¬ ∃ h, c.client = some h ∧ h.IsConnected = true) →
        (Connect c loggers tok calls).c
          = { c with client := some { opts := sessionOptions c.Broker,
                                      connected := tok.Error.isNone } }
        ∧ (Connect c loggers tok calls).calls
          = calls ++ [.newClient (sessionOptions c.Broker), .connect]
        ∧ (Connect c loggers tok calls).err = tok.Error) := by
  have hany : c.client.any MqttClient.IsConnected = true
      ↔ ∃ h, c.client = some h ∧ h.IsConnected = true := by
    cases hcl : c.client <;> simp
  have hpos : (∃ h, c.client = some h ∧ h.IsConnected = true) →
      Connect c loggers tok calls
        = { c := c, loggers := loggers, calls := calls,
            err := some (.text "already connected") } := by
    intro hex
    simp [Connect, hany.mpr hex]
  have hneg : (¬ ∃ h, c.client = some h ∧ h.IsConnected = true) →
      (Connect c loggers tok calls).c
          = { c with client := some { opts := sessionOptions c.Broker,
                                      connected := tok.Error.isNone } }
        ∧ (Connect c loggers tok calls).calls
          = calls ++ [.newClient (sessionOptions c.Broker), .connect]
        ∧ (Connect c loggers tok calls).err = tok.Error := by
    intro hno
    have hfalse : c.client.any MqttClient.IsConnected = false := by
      cases hb : c.client.any MqttClient.IsConnected
      · rfl
      · exact absurd (hany.mp hb) hno
    cases he : tok.Error <;>
      simp [Connect, hfalse, he, Token.Wait, sessionOptions, NewClientOptions,
        ClientOptions.AddBroker, ClientOptions.SetClientID, ClientOptions.SetKeepAlive, ClientOptions.SetPingTimeout]
  refine ⟨⟨?_, fun hex => by rw [hpos hex]⟩, hpos, hneg⟩
  intro herr
  by_contra hno
  have h3 := (hneg hno).2.2
  rw [h3] at herr
  cases hc : tok.code <;> simp [Token.Error, hc] at herr

/-- Witness of C7: a second `Connect` on a connected client. -/
theorem Connect_already_connected_iff_witness :
    Connect { Broker := "b", Topic := "t", HomePIN := 0, GuestPIN := 0,
              client := some { opts := NewClientOptions, connected := true },
              gp := none, goals := none, done := none }
        { debug := true, error := true } { code := none } [.connect]
      = { c := { Broker := "b", Topic := "t", HomePIN := 0, GuestPIN := 0,
                 client := some { opts := NewClientOptions, connected := true },
                 gp := none, goals := none, done := none },
          loggers := { debug := true, error := true }, calls := [.connect],
          err := some (.text "already connected") } :=
  (Connect_already_connected_iff
    { Broker := "b", Topic := "t", HomePIN := 0, GuestPIN := 0,
      client := some { opts := NewClientOptions, connected := true },
      gp := none, goals := none, done := none }
    { debug := true, error := true } { code := none } [.connect]).2.1
    ⟨{ opts := NewClientOptions, connected := true }, rfl, rfl⟩

/-! ### The pipeline -/

/-- No step is enabled once a goroutine has panicked. -/
theorem step_not_crashed {a : Action} {s s1 : Sys} (h : step a s = some s1) :
    s.crashed = false := by
  cases hc : s.crashed
  · rfl
  · simp [step, hc] at h

/-- A property kept by every step holds after every schedule. -/
theorem exec_invariant (P : Sys → Prop)
    (hstep : ∀ (a : Action) (s s1 : Sys), P s → step a s = some s1 → P s1) :
    ∀ (acts : List Action) (s s1 : Sys), P s → exec acts s = some s1 → P s1 := by
  intro acts
  induction acts with
  | nil =>
    intro s s1 hs h
    simp only [exec, Option.some.injEq] at h
    exact h ▸ hs
  | cons a acts ih =>
    intro s s1 hs h
    simp only [exec] at h
    cases hst : step a s with
    | none => simp [hst] at h
    | some s2 =>
      simp only [hst] at h
      exact ih s2 s1 (hstep a s s2 hs hst) h

/-- Running two schedules one after the other. -/
theorem exec_append (acts1 acts2 : List Action) (s : Sys) :
    exec (acts1 ++ acts2) s = (exec acts1 s).bind (exec acts2) := by
  induction acts1 generalizing s with
  | nil => rfl
  | cons a acts1 ih =>
    simp only [List.cons_append, exec]
    cases step a s with
    | none => rfl
    | some s2 => exact ih s2

/-- Every step keeps the queue within its capacity of 5. -/
theorem GoalsBounded_step (a : Action) (s s1 : Sys) (hs : GoalsBounded s)
    (h : step a s = some s1) : GoalsBounded s1 := by
  have hc := step_not_crashed h
  obtain ⟨q, hq, hlen⟩ := hs
  rcases a with ⟨_ | _, rd⟩ | ⟨_ | _, rd⟩ | (_ | _) | _ | tok | _ | _ | _ | _ | _ | (_ | _) | _
  all_goals simp only [step, hc, Bool.false_eq_true, if_false, Sys.poller, Sys.setPoller] at h
  all_goals (repeat' split at h)
  all_goals (try (simp only [Option.some.injEq, reduceCtorEq] at h))
  all_goals (try subst h)
  all_goals (try exact ⟨q, hq, hlen⟩)
  all_goals (simp_all [GoalsBounded])
  all_goals omega

/-- Every step keeps the tags of the pushed events among "home" and "guest". -/
theorem Tagged_step (a : Action) (s s1 : Sys) (hs : Tagged s)
    (h : step a s = some s1) : Tagged s1 := by
  have hc := step_not_crashed h
  rcases a with ⟨_ | _, rd⟩ | ⟨_ | _, rd⟩ | (_ | _) | _ | tok | _ | _ | _ | _ | _ | (_ | _) | _
  all_goals simp only [step, hc, Bool.false_eq_true, if_false, Sys.poller, Sys.setPoller] at h
  all_goals (repeat' split at h)
  all_goals (try (simp only [Option.some.injEq, reduceCtorEq] at h))
  all_goals (try subst h)
  all_goals (try exact hs)
  all_goals
    intro e he
    simp only [List.mem_append, List.mem_singleton] at he
    rcases he with he | he
    · exact hs e he
    · subst he
      simp [Poller.who]

/-- Every step keeps a broker handle in the client. -/
theorem HasHandle_step (a : Action) (s s1 : Sys) (hs : HasHandle s)
    (h : step a s = some s1) : HasHandle s1 := by
  have hc := step_not_crashed h
  rcases a with ⟨_ | _, rd⟩ | ⟨_ | _, rd⟩ | (_ | _) | _ | tok | _ | _ | _ | _ | _ | (_ | _) | _
  all_goals simp only [step, hc, Bool.false_eq_true, if_false, Sys.poller, Sys.setPoller] at h
  all_goals (repeat' split at h)
  all_goals (try (simp only [Option.some.injEq, reduceCtorEq] at h))
  all_goals (try subst h)
  all_goals (try exact hs)
  all_goals (simp_all [HasHandle])

/-- While `c.done` is nil every step leaves `Run` at its receive, `Disconnect`
unreturned and the workers unstopped. -/
theorem Waiting_step (a : Action) (s s1 : Sys) (hs : Waiting s)
    (h : step a s = some s1) : Waiting s1 := by
  have hc := step_not_crashed h
  obtain ⟨hd, hr, hdisc, hl, hh, hg⟩ := hs
  rcases a with ⟨_ | _, rd⟩ | ⟨_ | _, rd⟩ | (_ | _) | _ | tok | _ | _ | _ | _ | _ | (_ | _) | _
  all_goals simp only [step, hc, Bool.false_eq_true, if_false, Sys.poller, Sys.setPoller] at h
  all_goals (repeat' split at h)
  all_goals (try (simp only [Option.some.injEq, reduceCtorEq] at h))
  all_goals (try subst h)
  all_goals (try exact ⟨hd, hr, hdisc, hl, hh, hg⟩)
  all_goals (simp_all [Waiting])

/-- What `publish` adds to the broker call log when it returns. -/
theorem publish_calls (c : Client) (who : String) (tok : Token) (calls calls1 : List BrokerCall)
    (err : Option GoError) (h : publish c who tok calls = some (err, calls1)) :
    calls1 = calls ++ [requestOf c.Topic who] := by
  cases hcl : c.client with
  | none => simp [publish, jsonMarshal, hcl] at h
  | some hd =>
    rw [publish_some c hd hcl] at h
    simp only [Option.some.injEq, Prod.mk.injEq] at h
    rw [← h.2]
    rfl

/-- The publish requests of a log extended by a publish request. -/
theorem publishesOf_append_request (calls : List BrokerCall) (topic who : String) :
    publishesOf (calls ++ [requestOf topic who]) = publishesOf calls ++ [requestOf topic who] := by
  simp [publishesOf, requestOf, List.filter_append]

/-- Every step keeps the accounting of pushed, published, held and queued events. -/
theorem Fifo_step (topic : String) (calls0 : List BrokerCall) (a : Action) (s s1 : Sys)
    (hs : Fifo topic calls0 s) (h : step a s = some s1) : Fifo topic calls0 s1 := by
  have hc := step_not_crashed h
  obtain ⟨ht, sent, hp, hcalls⟩ := hs
  rcases a with ⟨_ | _, rd⟩ | ⟨_ | _, rd⟩ | (_ | _) | _ | tok | _ | _ | _ | _ | _ | (_ | _) | _
  all_goals simp only [step, hc, Bool.false_eq_true, if_false, Sys.poller, Sys.setPoller] at h
  all_goals (repeat' split at h)
  all_goals (try (simp only [Option.some.injEq, reduceCtorEq] at h))
  all_goals (try subst h)
  all_goals (try exact ⟨ht, sent, hp, hcalls⟩)
  all_goals first
    | (have hpc := publish_calls _ _ _ _ _ _ ‹publish s.c _ tok s.calls = some _›
       rename_i who _ _ _ _ _
       refine ⟨ht, sent ++ [who], ?_, ?_⟩
       · simp_all [Sys.queue, ListenPc.inflight]
       · rw [hpc, publishesOf_append_request, hcalls, ht]
         simp)
    | (have hpc := publish_calls _ _ _ _ _ _ ‹publish s.c _ tok s.calls = some _›
       rename_i who _ _ _ _
       refine ⟨ht, sent ++ [who], ?_, ?_⟩
       · simp_all [Sys.queue, ListenPc.inflight]
       · rw [hpc, publishesOf_append_request, hcalls, ht]
         simp)
    | (refine ⟨ht, sent, ?_, hcalls⟩
       simp_all [Sys.queue, ListenPc.inflight])
    | (refine ⟨ht, sent, ?_, ?_⟩
       · simp_all [Sys.queue, ListenPc.inflight]
       · simp_all [publishesOf, List.filter_append])

/-- What `NewClient` leaves in the two channel fields. -/
theorem FromNewClient_channels (c : Client) (hc : FromNewClient c) :
    c.goals = some { cap := 5, buf := [] } ∧ c.done = none := by
  obtain ⟨dev, c0, hnew, hg, hd⟩ := hc
  cases dev with
  | error err => simp [NewClient] at hnew
  | ok g =>
    simp only [NewClient, Except.ok.injEq] at hnew
    subst hnew
    exact ⟨hg, hd⟩

/-- A poller in its send on a full queue: no step but the publisher's receive
is enabled for it or touches the queue, its stored reading or the push history. -/
theorem blocked_step (s : Sys) (hb : GoalsBounded s) (p : Poller) (last value : Nat)
    (hp : s.poller p = .sending last value) (hfull : s.queue.length = 5)
    (a : Action) (s1 : Sys) (h : step a s = some s1) :
    a = .listenRecv
      ∨ (s1.poller p = .sending last value ∧ s1.queue = s.queue ∧ s1.pushed = s.pushed) := by
  have hc := step_not_crashed h
  obtain ⟨q, hq, hlen⟩ := hb
  have hq5 : q.length = 5 := by simpa [Sys.queue, hq] using hfull
  cases p <;>
    rcases a with ⟨_ | _, rd⟩ | ⟨_ | _, rd⟩ | (_ | _) | _ | tok | _ | _ | _ | _ | _ | (_ | _) | _
  all_goals (try exact Or.inl rfl)
  all_goals right
  all_goals simp only [step, hc, Bool.false_eq_true, if_false, Sys.poller, Sys.setPoller] at h hp
  all_goals (repeat' split at h)
  all_goals (try (simp only [Option.some.injEq, reduceCtorEq] at h))
  all_goals (try subst h)
  all_goals (try exact ⟨hp, rfl, rfl⟩)
  all_goals (simp_all [Sys.poller, Sys.queue])

/-- The start state satisfies the invariants of a client made by `NewClient`. -/
theorem start_invariants (c : Client) (hc : FromNewClient c) (calls0 : List BrokerCall) :
    GoalsBounded (start c calls0) ∧ Fifo c.Topic calls0 (start c calls0)
      ∧ Tagged (start c calls0) ∧ Waiting (start c calls0) := by
  obtain ⟨hg, hd⟩ := FromNewClient_channels c hc
  refine ⟨⟨[], hg, by simp⟩, ⟨rfl, [], ?_, ?_⟩, ?_, ?_⟩
  · simp [start, Sys.queue, hg, ListenPc.inflight]
  · simp [start]
  · intro e he
    simp [start] at he
  · simp [Waiting, start, hd]

/-- A push is enabled only below the capacity, and appends the poller's tag to
the queue and to the history. -/
theorem monitorSend_enabled (s : Sys) (hb : GoalsBounded s) (p : Poller) (s1 : Sys)
    (h : step (.monitorSend p) s = some s1) :
    s.queue.length < 5 ∧ s1.queue = s.queue ++ [p.who] := by
  have hc := step_not_crashed h
  obtain ⟨q, hq, _⟩ := hb
  cases p
  all_goals simp only [step, hc, Bool.false_eq_true, if_false, Sys.poller, Sys.setPoller] at h
  all_goals (repeat' split at h)
  all_goals (try (simp only [Option.some.injEq, reduceCtorEq] at h))
  all_goals (try subst h)
  all_goals (simp_all [Sys.queue])

/-- A poller in its send on a full queue can neither push nor sample. -/
theorem blocked_disabled (s : Sys) (hb : GoalsBounded s) (p : Poller) (last value : Nat)
    (hp : s.poller p = .sending last value) (hfull : s.queue.length = 5) :
    step (.monitorSend p) s = none ∧ ∀ rd, step (.monitorTick p rd) s = none := by
  constructor
  · cases h : step (.monitorSend p) s with
    | none => rfl
    | some s1 =>
      have := (monitorSend_enabled s hb p s1 h).1
      omega
  · intro rd
    cases p <;> simp_all [step, Sys.poller]

/-- Claim C10: in every state the pipeline reaches from a client made by
`NewClient`, the goals queue holds at most 5 events; a push is enabled only
while it holds fewer than 5; a poller that detected a change while 5 events are
queued cannot push and cannot sample, and every step other than the publisher's
receive leaves its stored reading, the queue and the push history as they are. -/
theorem goals_queue_holds_at_most_five (c : Client) (hc : FromNewClient c)
    (calls0 : List BrokerCall) (acts : List Action) (s : Sys)
    (hex : exec acts (start c calls0) = some s) :
    (∃ q, s.c.goals = some { cap := 5, buf := q } ∧ q.length ≤ 5)
    ∧ s.queue.length ≤ 5
    ∧ (∀ p s1, step (.monitorSend p) s = some s1 →
        s.queue.length < 5 ∧ s1.queue = s.queue ++ [p.who])
    ∧ (∀ p last value, s.poller p = .sending last value → s.queue.length = 5 →
        step (.monitorSend p) s = none
        ∧ (∀ rd, step (.monitorTick p rd) s = none)
        ∧ (∀ a s1, step a s = some s1 →
            a = .listenRecv
              ∨ (s1.poller p = .sending last value ∧ s1.queue = s.queue
                  ∧ s1.pushed = s.pushed))) := by
  have hb : GoalsBounded s :=
    exec_invariant GoalsBounded GoalsBounded_step acts _ s (start_invariants c hc calls0).1 hex
  refine ⟨hb, ?_, fun p s1 h => monitorSend_enabled s hb p s1 h, ?_⟩
  · obtain ⟨q, hq, hlen⟩ := hb
    simpa [Sys.queue, hq] using hlen
  · intro p last value hp hfull
    exact ⟨(blocked_disabled s hb p last value hp hfull).1,
      (blocked_disabled s hb p last value hp hfull).2,
      fun a s1 h => blocked_step s hb p last value hp hfull a s1 h⟩

/-- The client of `main` is a client made by `NewClient`. -/
theorem mainClient_fromNewClient : FromNewClient mainClient :=
  ⟨.ok { address := 4 }, _, rfl, rfl, rfl⟩

/-- Witness of C10: after `fillQueue` the queue of the client of `main` holds 5
events and the home poller, which has just read a change, cannot push. -/
theorem goals_queue_holds_at_most_five_witness :
    FromNewClient mainClient
    ∧ exec fillQueue (start mainClient []) = some fullState
    ∧ fullState.poller .home = .sending 1 0
    ∧ fullState.queue.length = 5
    ∧ step (.monitorSend .home) fullState = none :=
  ⟨mainClient_fromNewClient, rfl, rfl, rfl,
   ((goals_queue_holds_at_most_five mainClient mainClient_fromNewClient [] fillQueue fullState
      rfl).2.2.2 .home 1 0 rfl rfl).1⟩

/-- Claim C8, on the code as it is: `NewClient` leaves `c.done` nil, so in every
state the pipeline reaches, before or after `Disconnect` is called, `Run` is
still at its receive of line 127, the caller of `Disconnect` has not returned,
no worker has been stopped, and neither a send or receive on `c.done` nor the
first stop signal is enabled. -/
theorem disconnect_blocks_on_nil_done (c : Client) (hc : FromNewClient c)
    (calls0 : List BrokerCall) (acts : List Action) (s : Sys)
    (hex : exec acts (start c calls0) = some s) :
    s.c.done = none ∧ s.run = .waitDone ∧ s.disc ≠ .returned ∧ s.listen ≠ .returned
    ∧ s.home ≠ .returned ∧ s.guest ≠ .returned
    ∧ step .doneHandoff s = none ∧ step .doneSend s = none ∧ step .doneRecv s = none
    ∧ step .stopListen s = none := by
  have hw : Waiting s :=
    exec_invariant Waiting Waiting_step acts _ s (start_invariants c hc calls0).2.2.2 hex
  obtain ⟨hd, hr, hdisc, hl, hh, hg⟩ := hw
  refine ⟨hd, hr, hdisc, hl, hh, hg, ?_, ?_, ?_, ?_⟩
  · cases hcr : s.crashed <;> cases hdc : s.disc <;> simp [step, hcr, hd, hdc]
  · cases hcr : s.crashed <;> cases hdc : s.disc <;> simp [step, hcr, hd, hdc]
  · cases hcr : s.crashed <;> simp [step, hcr, hd, hr]
  · cases hcr : s.crashed <;> simp [step, hcr, hr]

/-- Witness of C8's failing input: on the client of `main`, after `Disconnect`
is called, its caller is in the send of line 140 and `Run` has not moved. -/
theorem disconnect_blocks_on_nil_done_witness :
    exec [.callDisconnect] (start mainClient [])
        = some { start mainClient [] with disc := .sending }
    ∧ ({ start mainClient [] with disc := .sending } : Sys).run = .waitDone
    ∧ step .doneHandoff { start mainClient [] with disc := .sending } = none :=
  ⟨rfl,
   (disconnect_blocks_on_nil_done mainClient mainClient_fromNewClient [] [.callDisconnect]
      { start mainClient [] with disc := .sending } rfl).2.1,
   (disconnect_blocks_on_nil_done mainClient mainClient_fromNewClient [] [.callDisconnect]
      { start mainClient [] with disc := .sending } rfl).2.2.2.2.2.2.1⟩

/-- The publisher's publish call returns when the client holds a broker handle:
the publisher is back at its `select`, the queue and the push history are
untouched. -/
theorem listenPublish_enabled (s : Sys) (hh : HasHandle s) (hcr : s.crashed = false)
    (who : String) (hl : s.listen = .publishing who) (tok : Token) :
    ∃ s1, step (.listenPublish tok) s = some s1 ∧ s1.listen = .select ∧ s1.c = s.c
      ∧ s1.crashed = false ∧ s1.pushed = s.pushed := by
  cases hcl : s.c.client with
  | none => simp [HasHandle, hcl] at hh
  | some hd =>
    cases he : tok.Error <;>
      simp [step, hcr, hl, publish_some s.c hd hcl, he]

/-- The publisher's receive is enabled at its `select` on a non-empty queue:
it takes the oldest event. -/
theorem listenRecv_enabled (s : Sys) (hcr : s.crashed = false) (hl : s.listen = .select)
    (who : String) (rest : List String) (hq : s.queue = who :: rest) :
    ∃ s1, step .listenRecv s = some s1 ∧ s1.listen = .publishing who ∧ s1.queue = rest
      ∧ s1.c.client = s.c.client ∧ s1.crashed = false ∧ s1.pushed = s.pushed := by
  cases hg : s.c.goals with
  | none => simp [Sys.queue, hg] at hq
  | some ch =>
    simp only [Sys.queue, hg] at hq
    simp [step, hcr, hl, hg, hq, Sys.queue]

/-- The schedule `drain` runs from any state whose publisher has not returned
and whose client holds a broker handle, whatever the broker answers; it leaves
the queue empty, the publisher at its `select` and the push history untouched. -/
theorem drain_runs (toks : List Token) :
    ∀ s : Sys, HasHandle s → s.crashed = false → s.listen ≠ .returned →
      toks.length = s.listen.inflight.length + s.queue.length →
      ∃ s1, exec (drain s.listen s.queue.length toks) s = some s1 ∧ s1.queue = []
        ∧ s1.listen = .select ∧ s1.pushed = s.pushed := by
  induction toks with
  | nil =>
    intro s _ _ hl hlen
    cases hls : s.listen with
    | returned => exact absurd hls hl
    | publishing who =>
      simp only [hls, ListenPc.inflight, List.length_cons, List.length_nil] at hlen
      omega
    | select =>
      simp only [hls, ListenPc.inflight, List.length_nil, Nat.zero_add] at hlen
      have hq : s.queue = [] := List.length_eq_zero.mp hlen.symm
      exact ⟨s, by simp [hq, drain, exec], hq, hls, rfl⟩
  | cons tok toks ih =>
    intro s hh hcr hl hlen
    cases hls : s.listen with
    | returned => exact absurd hls hl
    | publishing who =>
      obtain ⟨s1, hst, hl1, hc1, hcr1, hp1⟩ := listenPublish_enabled s hh hcr who hls tok
      have hq1 : s1.queue = s.queue := by simp [Sys.queue, hc1]
      have hlen1 : toks.length = s1.listen.inflight.length + s1.queue.length := by
        simp only [hls, ListenPc.inflight, List.length_cons, List.length_nil] at hlen
        simp only [hl1, ListenPc.inflight, List.length_nil, hq1]
        omega
      obtain ⟨s2, hex, hq2, hl2, hp2⟩ :=
        ih s1 (by simp [HasHandle, hc1]; exact hh) hcr1 (by simp [hl1]) hlen1
      refine ⟨s2, ?_, hq2, hl2, by rw [hp2, hp1]⟩
      simp only [drain, exec, hst]
      rw [hl1, hq1] at hex
      exact hex
    | select =>
      simp only [hls, ListenPc.inflight, List.length_nil, Nat.zero_add,
        List.length_cons] at hlen
      cases hq : s.queue with
      | nil => simp [hq] at hlen
      | cons who rest =>
        obtain ⟨s1, hst1, hl1, hq1, hcl1, hcr1, hp1⟩ := listenRecv_enabled s hcr hls who rest hq
        have hh1 : HasHandle s1 := by simp [HasHandle, hcl1]; exact hh
        obtain ⟨s2, hst2, hl2, hc2, hcr2, hp2⟩ := listenPublish_enabled s1 hh1 hcr1 who hl1 tok
        have hq2 : s2.queue = rest := by simp [Sys.queue, hc2] at hq1 ⊢; exact hq1
        have hlen2 : toks.length = s2.listen.inflight.length + s2.queue.length := by
          simp only [hq, List.length_cons] at hlen
          simp only [hl2, ListenPc.inflight, List.length_nil, hq2]
          omega
        obtain ⟨s3, hex, hq3, hl3, hp3⟩ :=
          ih s2 (by simp [HasHandle, hc2]; exact hh1) hcr2 (by simp [hl2]) hlen2
        refine ⟨s3, ?_, hq3, hl3, by rw [hp3, hp2, hp1]⟩
        simp only [List.length_cons, drain, exec, hst1, hst2]
        rw [hl2, hq2] at hex
        exact hex

/-- For the two tags the request `publish` makes is the prescribed message. -/
theorem requestOf_tag (topic e : String) (he : e = "home" ∨ e = "guest") :
    requestOf topic e = messageOf topic e := by
  rcases he with rfl | rfl
  · exact congrArg (BrokerCall.publish topic 0 false)
      (congrArg Prod.fst (jsonMarshal_scorer .home))
  · exact congrArg (BrokerCall.publish topic 0 false)
      (congrArg Prod.fst (jsonMarshal_scorer .guest))

/-- In every state the pipeline reaches from a client made by `NewClient`: the
events pushed so far are, in push order, those the broker was asked to publish
(each as the prescribed message), the one the publisher holds, and those queued. -/
theorem fifo_reachable (c : Client) (hc : FromNewClient c) (calls0 : List BrokerCall)
    (acts : List Action) (s : Sys) (hex : exec acts (start c calls0) = some s) :
    ∃ sent, s.pushed = sent ++ s.listen.inflight ++ s.queue
      ∧ publishesOf s.calls = publishesOf calls0 ++ sent.map (messageOf c.Topic) := by
  have hi := start_invariants c hc calls0
  obtain ⟨_, sent, hp, hcalls⟩ :=
    exec_invariant (Fifo c.Topic calls0) (Fifo_step c.Topic calls0) acts _ s hi.2.1 hex
  have ht : Tagged s := exec_invariant Tagged Tagged_step acts _ s hi.2.2.1 hex
  refine ⟨sent, hp, ?_⟩
  rw [hcalls]
  congr 1
  apply List.map_congr_left
  intro e he
  exact requestOf_tag c.Topic e (ht e (by rw [hp]; simp [he]))

/-- Claim C4: in every state the pipeline reaches from a client made by
`NewClient` that holds a broker handle, the events pushed on the goals queue
(by either poller) are, in push order, those `listen` has called publish on,
then the one it holds, then those still queued; and as long as `listen` has not
been stopped, letting it run publishes every pushed event, in push order,
whatever the broker answers.  In the scenario (both pollers store 0, home reads
0, 0, 1, then guest reads 0, 1) on the client of `main`, the publish requests
are `{"scorer":"home"}` and then `{"scorer":"guest"}`, and nothing else. -/
theorem listen_publishes_in_enqueue_order (c : Client) (hc : FromNewClient c)
    (hd : MqttClient) (hcl : c.client = some hd) (calls0 : List BrokerCall)
    (acts : List Action) (s : Sys) (hex : exec acts (start c calls0) = some s) :
    (∃ sent, s.pushed = sent ++ s.listen.inflight ++ s.queue
      ∧ publishesOf s.calls = publishesOf calls0 ++ sent.map (messageOf c.Topic))
    ∧ (s.listen ≠ .returned → s.crashed = false →
        ∀ toks : List Token, toks.length = s.listen.inflight.length + s.queue.length →
          ∃ s1, exec (drain s.listen s.queue.length toks) s = some s1
            ∧ s1.pushed = s.pushed ∧ s1.queue = [] ∧ s1.listen.inflight = []
            ∧ publishesOf s1.calls = publishesOf calls0 ++ s.pushed.map (messageOf c.Topic))
    ∧ mainSetup (.ok { address := 4 }) { code := none } = .ok (mainClient, mainCalls)
    ∧ (exec scenario (start mainClient mainCalls)).map (fun s2 => publishesOf s2.calls)
        = some [.publish "goline/goals" 0 false "\x7b\"scorer\":\"home\"\x7d",
                .publish "goline/goals" 0 false "\x7b\"scorer\":\"guest\"\x7d"] := by
  refine ⟨fifo_reachable c hc calls0 acts s hex, ?_, rfl, rfl⟩
  intro hl hcr toks hlen
  have hh0 : HasHandle (start c calls0) := by simp [HasHandle, start, hcl]
  have hh : HasHandle s := exec_invariant HasHandle HasHandle_step acts _ s hh0 hex
  obtain ⟨s1, hex1, hq1, hl1, hp1⟩ := drain_runs toks s hh hcr hl hlen
  have hreach : exec (acts ++ drain s.listen s.queue.length toks) (start c calls0) = some s1 := by
    rw [exec_append, hex]
    exact hex1
  obtain ⟨sent, hp, hcalls⟩ := fifo_reachable c hc calls0 _ s1 hreach
  have hsent : sent = s.pushed := by
    rw [← hp1, hp, hq1, hl1]
    simp [ListenPc.inflight]
  refine ⟨s1, hex1, hp1, hq1, by simp [hl1, ListenPc.inflight], ?_⟩
  rw [hcalls, hsent]

/-- Witness of C4: the scenario on the client of `main`. -/
theorem listen_publishes_in_enqueue_order_witness :
    FromNewClient mainClient
    ∧ exec scenario (start mainClient mainCalls) = some scenarioEnd
    ∧ ∃ sent, scenarioEnd.pushed = sent ++ scenarioEnd.listen.inflight ++ scenarioEnd.queue
        ∧ publishesOf scenarioEnd.calls
            = publishesOf mainCalls ++ sent.map (messageOf mainClient.Topic) :=
  ⟨mainClient_fromNewClient, rfl,
   (listen_publishes_in_enqueue_order mainClient mainClient_fromNewClient
      { opts := sessionOptions "tcp://localhost:1883", connected := true } rfl mainCalls
      scenario scenarioEnd rfl).1⟩

/-- Claim C5: for a tag `who` of `Run` ("home" or "guest"), `publish(who)` on a
client that holds a broker handle appends exactly one request to the broker
call log: a publish on `c.Topic`, at level 0, not retained, whose payload is
the text `{"scorer":"<who>"}`; decoded as a JSON object, that payload is the
single field `scorer` with value `who`.  Hence in every state the pipeline
reaches from a client made by `NewClient`, every publish request made since the
start is that message for one of the two tags. -/
theorem publish_sends_one_scorer_message (c : Client) (h : MqttClient)
    (hc : c.client = some h) (p : Poller) (tok : Token) (calls : List BrokerCall) :
    (p.who = "home" ∨ p.who = "guest")
    ∧ publish c p.who tok calls
        = some (tok.Error, calls ++ [.publish c.Topic 0 false (payloadOf p.who)])
    ∧ jsonDecodeObject (payloadOf p.who) = some [("scorer", p.who)]
    ∧ (∀ (calls0 : List BrokerCall) (acts : List Action) (s : Sys), FromNewClient c →
        exec acts (start c calls0) = some s →
        ∀ call ∈ publishesOf s.calls,
          call ∈ publishesOf calls0 ∨ ∃ q : Poller, call = messageOf c.Topic q.who) := by
  refine ⟨?_, ?_, ?_, ?_⟩
  · cases p
    · exact Or.inl rfl
    · exact Or.inr rfl
  · rw [publish_some c h hc, jsonMarshal_scorer]
  · cases p <;> decide
  · intro calls0 acts s hnew hex call hcall
    obtain ⟨sent, hp, hcalls⟩ := fifo_reachable c hnew calls0 acts s hex
    have ht : Tagged s :=
      exec_invariant Tagged Tagged_step acts _ s (start_invariants c hnew calls0).2.2.1 hex
    rw [hcalls, List.mem_append, List.mem_map] at hcall
    rcases hcall with hcall | ⟨e, he, rfl⟩
    · exact Or.inl hcall
    · right
      rcases ht e (by rw [hp]; simp [he]) with rfl | rfl
      · exact ⟨.home, rfl⟩
      · exact ⟨.guest, rfl⟩

/-- Witness of C5: the home tag on the client of `main`. -/
theorem publish_sends_one_scorer_message_witness :
    publish mainClient "home" { code := none } mainCalls
      = some (none, mainCalls
          ++ [.publish "goline/goals" 0 false "\x7b\"scorer\":\"home\"\x7d"]) :=
  (publish_sends_one_scorer_message mainClient
    { opts := sessionOptions "tcp://localhost:1883", connected := true } rfl .home
    { code := none } mainCalls).2.1

end Goline
